import Mathlib

/-!
# TextoHand — verification of the text-wrapping / pagination / page-composition pipeline

Shallow embedding of the pipeline of `pandeyshikhar18/TextoHand`:

* `src/main.py` (`process_text`): read + strip + drop-blank, sanitize against an
  alphabet, greedy word-wrap, pagination;
* `src/gui.py` (`HandwritingGenerator.generate_handwriting`,
  `draw_layout_preview`, `display_svg_preview`): hard character wrapping,
  overflow dialog, pagination, layout/raster preview;
* `src/handwriting_synthesis/hand/_draw.py` (`_draw`): page composition —
  background, ruled grid, margin guides, per-line stroke placement with a
  per-page line cap.

Python strings are embedded as `List Char`; the float coordinates of `_draw`
are embedded as exact rationals `ℚ`.
-/

namespace TextoHand

/-- Whitespace test used by Python's `str.strip()` / `str.split()`
(restricted to the ASCII whitespace characters). -/
def isWs (c : Char) : Bool :=
  c == ' ' || c == '\t' || c == '\n' || c == '\x0b' || c == '\x0c' || c == '\r'

/-- Python `str.strip()`: remove leading and trailing whitespace. -/
def strip (s : List Char) : List Char :=
  ((s.dropWhile isWs).reverse.dropWhile isWs).reverse

/-- Accumulator-based worker for `splitWs`; `acc` holds the characters of the
word currently being scanned, in reverse order. -/
def splitWsAux : List Char → List Char → List (List Char)
  | [], acc => if acc = [] then [] else [acc.reverse]
  | c :: cs, acc =>
    if isWs c then
      if acc = [] then splitWsAux cs []
      else acc.reverse :: splitWsAux cs []
    else splitWsAux cs (c :: acc)

/-- Python `str.split()` (no argument): split on runs of whitespace,
discarding empty pieces. -/
def splitWs (s : List Char) : List (List Char) :=
  splitWsAux s []

/-- `main.py` line 27: `''.join(char if char in alphabet else ' ' for char in line)`. -/
def sanitize (alphabet : List Char) (s : List Char) : List Char :=
  s.map (fun c => if c ∈ alphabet then c else ' ')

/-- The greedy word-wrap loop of `main.py` lines 32–41, with `current` the
running `current_line`:

```python
for word in words:
    if len(current_line) + len(word) + 1 > max_line_length:
        wrapped_lines.append(current_line.strip())
        current_line = word
    else:
        current_line += " " + word
if current_line:
    wrapped_lines.append(current_line.strip())
```
-/
def wrapWords (L : ℕ) (current : List Char) : List (List Char) → List (List Char)
  | [] => if current = [] then [] else [strip current]
  | w :: ws =>
    if current.length + w.length + 1 > L then
      strip current :: wrapWords L w ws
    else
      wrapWords L (current ++ ' ' :: w) ws

/-- Word-wrap of one sanitized source line (`main.py` lines 31–41):
`words = line.split()` then the greedy accumulation loop. -/
def wrapLine (L : ℕ) (line : List Char) : List (List Char) :=
  wrapWords L [] (splitWs line)

/-- Sanitize-then-wrap for one source line of `process_text`. -/
def processLine (alphabet : List Char) (L : ℕ) (line : List Char) : List (List Char) :=
  wrapLine L (sanitize alphabet line)

/-- All wrapped Display Lines produced by `process_text` (`main.py` lines
24–41): `lines = [line.strip() for line in file if line.strip()]`, then
sanitize each and wrap each, accumulating into one `wrapped_lines` list. -/
def mainWrapped (alphabet : List Char) (L : ℕ) (rawLines : List (List Char)) :
    List (List Char) :=
  (((rawLines.map strip).filter (fun l => !l.isEmpty)).map (sanitize alphabet)).flatMap
    (wrapLine L)

/-- Python slicing loop `[l[i:i+P] for i in range(0, len(l), P)]`, used both
for hard character wrapping (`gui.py` lines 680–681) and for pagination
(`main.py` line 44, `gui.py` lines 695–698).  `P = 0` raises in Python
(`range` with zero step); the guard returns `[]` in that unreachable case. -/
def chunksOf (P : ℕ) : List α → List (List α)
  | [] => []
  | x :: xs =>
    if P = 0 then []
    else (x :: xs).take P :: chunksOf P ((x :: xs).drop P)
termination_by l => l.length
decreasing_by
  simp only [List.length_drop, List.length_cons]
  omega

/-- The GUI wrap (`gui.py` lines 675–681): per source line, an empty line
yields one empty Display Line, otherwise the line is hard-split every
`max_line_length` characters. -/
def guiWrap (L : ℕ) (srcLines : List (List Char)) : List (List Char) :=
  srcLines.flatMap (fun line => if line = [] then [[]] else chunksOf L line)

/-- The overflow check of `gui.py` lines 684–693 (`generate_handwriting`): in
non-preview mode, when the wrapped-line count exceeds the `total_lines`
budget, a dialog reporting the actual count and the budget is shown; the
carried pair `(actual, budget)` is the content of that report.  `none` means
no overflow was signalled. -/
def overflowReport (preview : Bool) (wrapped : List (List Char)) (T : ℕ) :
    Option (ℕ × ℕ) :=
  if !preview ∧ wrapped.length > T then some (wrapped.length, T) else none

/-- The caller's resolution of the overflow dialog (`gui.py` lines 685–693):
`proceed = true` is the user answering *yes* (truncate to the first `T` lines
and continue), `proceed = false` is *no* (the function returns, aborting).
When no overflow is signalled the wrapped lines pass through unchanged. -/
def resolveOverflow (preview : Bool) (wrapped : List (List Char)) (T : ℕ)
    (proceed : Bool) : Option (List (List Char)) :=
  if !preview ∧ wrapped.length > T then
    if proceed then some (wrapped.take T) else none
  else some wrapped

/-! ## Page composition (`src/handwriting_synthesis/hand/_draw.py`)

Geometry is embedded over `ℚ`.  A stroke enters the per-line loop of `_draw`
already decoded/denoised/aligned (`drawing.offsets_to_coords`,
`drawing.denoise`, `drawing.align` live outside the pipeline sources, in the
`drawing` package); the loop body visible in `_draw.py` then flips the y axis
(`strokes[:, 1] *= -1`) and translates by the scalar global minimum plus
`initial_coord`.  We embed the loop from that boundary on: a stroke is the
list of its `(x, y)` points after `align`. -/

/-- One SVG element added to the drawing (`dwg.add` calls of `_draw`). -/
inductive SvgElem where
  | rect (x y w h : ℚ) (fill : String)
  | line (x1 y1 x2 y2 : ℚ) (stroke : String) (strokeWidth : ℚ)
  | path (points : List (ℚ × ℚ)) (color : String) (width : ℚ)
deriving DecidableEq

/-- The page-style tuple unpacked at `_draw.py` line 11 (its three colors and
six numbers; `total_lines_per_page` drives `range`, hence `ℕ`). -/
structure PageCfg where
  line_height : ℚ
  total_lines_per_page : ℕ
  view_height : ℚ
  view_width : ℚ
  margin_left : ℚ
  margin_top : ℚ
  page_color : String
  margin_color : String
  line_color : String
deriving DecidableEq

/-- `_draw.py` line 32: `initial_coord = np.array([margin_left, margin_top - line_height/2])`. -/
def initialCoord (cfg : PageCfg) : ℚ × ℚ :=
  (cfg.margin_left, cfg.margin_top - cfg.line_height / 2)

/-- Minimum of a list of rationals (`numpy.min`); `0` on the empty list,
where numpy raises instead. -/
def listMin : List ℚ → ℚ
  | [] => 0
  | x :: xs => xs.foldl min x

/-- `strokes[:, :2].min()` — the scalar minimum over *both* columns jointly. -/
def globalMin (s : List (ℚ × ℚ)) : ℚ :=
  listMin (s.map Prod.fst ++ s.map Prod.snd)

/-- Minimum x coordinate of a stroke. -/
def minX (s : List (ℚ × ℚ)) : ℚ :=
  listMin (s.map Prod.fst)

/-- Minimum y coordinate of a stroke. -/
def minY (s : List (ℚ × ℚ)) : ℚ :=
  listMin (s.map Prod.snd)

/-- `_draw.py` line 49: `strokes[:, 1] *= -1`. -/
def orient (s : List (ℚ × ℚ)) : List (ℚ × ℚ) :=
  s.map (fun p => (p.1, -p.2))

/-- `_draw.py` line 50: `strokes[:, :2] -= strokes[:, :2].min() + initial_coord`. -/
def place (c : ℚ × ℚ) (s : List (ℚ × ℚ)) : List (ℚ × ℚ) :=
  s.map (fun p => (p.1 - (globalMin s + c.1), p.2 - (globalMin s + c.2)))

/-- Per-line input of the composition loop: the zipped
`(offsets, line, color, width)` tuple of `_draw.py` line 35, with `offsets`
already taken through the out-of-scope `drawing.*` transforms. -/
structure LineItem where
  stroke : List (ℚ × ℚ)
  line : List Char
  color : String
  width : ℚ

/-- State of the composition loop: the vertical write cursor `initial_coord`
and the stroke paths added to the document so far. -/
structure ComposeState where
  cursor : ℚ × ℚ
  paths : List SvgElem

/-- One iteration of the `_draw` loop body (`_draw.py` lines 40–62): a blank
line only decrements the cursor; otherwise the oriented stroke is placed at
the cursor, appended as a styled path, and the cursor is decremented. -/
def lineStep (lh : ℚ) (st : ComposeState) (it : LineItem) : ComposeState :=
  if it.line = [] then
    ⟨(st.cursor.1, st.cursor.2 - lh), st.paths⟩
  else
    ⟨(st.cursor.1, st.cursor.2 - lh),
     st.paths ++ [SvgElem.path (place st.cursor (orient it.stroke)) it.color it.width]⟩

/-- The enumerated loop of `_draw.py` lines 35–62 with its defensive cap
(lines 36–38): `if i >= total_lines_per_page: break`. -/
def composeLines (lh : ℚ) (cap : ℕ) : ℕ → ComposeState → List LineItem → ComposeState
  | _, st, [] => st
  | i, st, it :: rest =>
    if cap ≤ i then st
    else composeLines lh cap (i + 1) (lineStep lh st it) rest

/-- The stroke paths `_draw` adds to one document for a given item list. -/
def strokePaths (cfg : PageCfg) (items : List LineItem) : List SvgElem :=
  (composeLines cfg.line_height cfg.total_lines_per_page 0
    ⟨initialCoord cfg, []⟩ items).paths

/-- The ruled-line grid of `_draw.py` lines 21–23: one horizontal guide per
slot, `y = line_height * (i + 1) - margin_top`, from `x = 0` to
`x = view_width`, in the ruled-line color, stroke width 1. -/
def ruledGrid (cfg : PageCfg) : List SvgElem :=
  (List.range cfg.total_lines_per_page).map (fun (i : ℕ) =>
    SvgElem.line 0 (cfg.line_height * ((i : ℚ) + 1) - cfg.margin_top)
      cfg.view_width (cfg.line_height * ((i : ℚ) + 1) - cfg.margin_top)
      cfg.line_color 1)

/-- The four margin guides of `_draw.py` lines 25–29: a doubled vertical line
near `-margin_left + line_height/2` and a doubled horizontal line near
`-margin_top`. -/
def marginGuides (cfg : PageCfg) : List SvgElem :=
  [SvgElem.line (-cfg.margin_left + cfg.line_height / 2) 0
     (-cfg.margin_left + cfg.line_height / 2) cfg.view_height cfg.margin_color 1,
   SvgElem.line (-cfg.margin_left + cfg.line_height / 2 - 5) 0
     (-cfg.margin_left + cfg.line_height / 2 - 5) cfg.view_height cfg.margin_color 1,
   SvgElem.line 0 (-cfg.margin_top) cfg.view_width (-cfg.margin_top) cfg.margin_color 1,
   SvgElem.line 0 (-cfg.margin_top - 5) cfg.view_width (-cfg.margin_top - 5)
     cfg.margin_color 1]

/-- The whole document `_draw` builds, in `dwg.add` order: background
rectangle, ruled grid, margin guides, then the placed stroke paths. -/
def draw (cfg : PageCfg) (items : List LineItem) : List SvgElem :=
  SvgElem.rect 0 0 cfg.view_width cfg.view_height cfg.page_color
    :: ruledGrid cfg ++ marginGuides cfg ++ strokePaths cfg items

/-! ## Preview display (`src/gui.py`)

The Tk canvas is embedded as the list of its items in creation order;
`canvas.delete("all")` replaces it by `[]`.  `winfo_width`/`winfo_height`
return integers.  Python's `int()` truncates toward zero. -/

/-- Python `int()` on a rational: truncation toward zero. -/
def pyTrunc (q : ℚ) : ℤ :=
  Int.tdiv q.num q.den

/-- One item drawn on the Tk preview canvas. -/
inductive CanvasItem where
  | rect (x1 y1 x2 y2 : ℚ) (fill outline : String)
  | line (x1 y1 x2 y2 : ℚ) (fill : String) (width : ℚ) (dashed : Bool)
  | text (x y : ℚ) (content fill : String)
  | image (x y : ℚ) (w h : ℤ)
deriving DecidableEq

/-- Configuration read from the Tk variables by `draw_layout_preview`. -/
structure LayoutCfg where
  view_width : ℚ
  view_height : ℚ
  margin_left : ℚ
  margin_top : ℚ
  line_height : ℚ
  total_lines : ℕ
  max_line_length : ℕ
  page_color : String
  margin_color : String
  line_color : String
  text : List Char
deriving DecidableEq

/-- The guide-line loop of `draw_layout_preview` (`gui.py` lines 513–526):
up to `total_lines` dashed lines, stepping `current_y` by
`(line_height / view_height) * page_height`, breaking once `current_y`
passes the bottom of the page. -/
def layoutGuides (xl xr limit step : ℚ) (color : String) :
    ℕ → ℚ → List CanvasItem
  | 0, _ => []
  | n + 1, current_y =>
    if current_y > limit then []
    else CanvasItem.line xl current_y xr current_y color 1 true
           :: layoutGuides xl xr limit step color n (current_y + step)

/-- `HandwritingGenerator.draw_layout_preview` (`gui.py` lines 458–549) as a
canvas-state transform.  The first statement is
`self.preview_canvas.delete("all")`; only then are the canvas dimensions
read and the `<= 10` degenerate-viewport check made, so the previous canvas
contents are discarded on every call, early return included. -/
def drawLayoutPreview (cfg : LayoutCfg) (prev : List CanvasItem)
    (canvas_width canvas_height : ℤ) : List CanvasItem :=
  let cleared : List CanvasItem := prev.drop prev.length   -- delete("all"): []
  if canvas_width ≤ 10 ∨ canvas_height ≤ 10 then cleared
  else
    let cw : ℚ := canvas_width
    let ch : ℚ := canvas_height
    let aspect_ratio := cfg.view_width / cfg.view_height
    let pw_ph : ℚ × ℚ :=
      if cfg.view_height > cfg.view_width then
        (ch * (9 / 10) * aspect_ratio, ch * (9 / 10))
      else
        (cw * (9 / 10), cw * (9 / 10) / aspect_ratio)
    let page_width := pw_ph.1
    let page_height := pw_ph.2
    let x_offset := (cw - page_width) / 2
    let y_offset := (ch - page_height) / 2
    let margin_left_pos := x_offset + cfg.margin_left / cfg.view_width * page_width
    let margin_top_pos := y_offset + cfg.margin_top / cfg.view_height * page_height
    let step := cfg.line_height / cfg.view_height * page_height
    let base := cleared ++
      [CanvasItem.rect x_offset y_offset (x_offset + page_width)
         (y_offset + page_height) cfg.page_color "black",
       CanvasItem.line margin_left_pos y_offset margin_left_pos
         (y_offset + page_height) cfg.margin_color 2 false,
       CanvasItem.line x_offset margin_top_pos (x_offset + page_width)
         margin_top_pos cfg.margin_color 2 false] ++
      layoutGuides (x_offset + 10) (x_offset + page_width - 10)
        (y_offset + page_height) step cfg.line_color cfg.total_lines
        (margin_top_pos + step)
    let t := strip cfg.text
    if t = [] then base
    else
      let wrapped := guiWrap cfg.max_line_length (t.splitOn '\n')
      if wrapped.length > cfg.total_lines then
        base ++ [CanvasItem.text (cw / 2) (ch / 2)
          "warning: Text Overflow - Too Many Lines" "red"]
      else base

/-- Result of `display_svg_preview`: the canvas contents after the call, and
whether the SVG file was rasterized to a PNG bitmap file during the call. -/
structure SvgPreviewResult where
  canvas : List CanvasItem
  png_written : Bool
deriving DecidableEq

/-- `HandwritingGenerator.display_svg_preview` (`gui.py` lines 579–619) as a
canvas-state transform, for an existing SVG whose rasterized bitmap has
pixel size `img_w × img_h`.  `cairosvg.svg2png` and `Image.open` run
*before* the canvas dimensions are read, so the PNG file is written even
when the `<= 10` degenerate-viewport check then returns early; in that case
the canvas (and hence the displayed preview) is left unchanged and no error
is raised. -/
def displaySvgPreview (prev : List CanvasItem) (img_w img_h : ℤ)
    (canvas_width canvas_height : ℤ) : SvgPreviewResult :=
  -- cairosvg.svg2png(url=svg_path, write_to=png_path); img = Image.open(png_path)
  if canvas_width ≤ 10 ∨ canvas_height ≤ 10 then
    ⟨prev, true⟩
  else
    let img_ratio : ℚ := (img_w : ℚ) / (img_h : ℚ)
    let canvas_ratio : ℚ := (canvas_width : ℚ) / (canvas_height : ℚ)
    let nw_nh : ℤ × ℤ :=
      if img_ratio > canvas_ratio then
        (canvas_width - 20, pyTrunc ((canvas_width - 20 : ℚ) / img_ratio))
      else
        (pyTrunc ((canvas_height - 20 : ℚ) * img_ratio), canvas_height - 20)
    ⟨[CanvasItem.image ((canvas_width : ℚ) / 2) ((canvas_height : ℚ) / 2)
        nw_nh.1 nw_nh.2], true⟩

/-- The page configuration built in `main.py` (`main`, lines 79–93): 32 px
line height, 24 lines per page, 896 px view height, width `896 * 0.707`,
margins `-64` and `-96`. -/
def mainPageCfg : PageCfg :=
  ⟨32, 24, 896, 896 * (707 / 1000), -64, -96, "white", "red", "lightgrey"⟩

/-- A concrete layout-preview configuration (the GUI defaults), used to
evaluate `drawLayoutPreview` at degenerate viewports. -/
def cexLayoutCfg : LayoutCfg :=
  ⟨632, 896, 64, 96, 32, 24, 60, "white", "red", "lightgrey", []⟩

/-! ## Helper lemmas: stripping and splitting -/

lemma mem_of_mem_dropWhileWs {p : Char → Bool} {l : List Char} {c : Char}
    (h : c ∈ l.dropWhile p) : c ∈ l := by
  induction l with
  | nil => simp at h
  | cons a as ih =>
    rw [List.dropWhile_cons] at h
    by_cases hp : p a
    · simp only [hp, if_pos] at h
      exact List.mem_cons_of_mem a (ih h)
    · simp only [hp] at h
      exact h

lemma mem_of_mem_strip {s : List Char} {c : Char} (h : c ∈ strip s) : c ∈ s := by
  unfold strip at h
  rw [List.mem_reverse] at h
  have h1 := mem_of_mem_dropWhileWs h
  rw [List.mem_reverse] at h1
  exact mem_of_mem_dropWhileWs h1

lemma length_dropWhileWs_le (p : Char → Bool) (l : List Char) :
    (l.dropWhile p).length ≤ l.length := by
  induction l with
  | nil => simp
  | cons a as ih =>
    rw [List.dropWhile_cons]
    by_cases hp : p a
    · simp only [hp, if_pos]
      exact le_trans ih (by simp)
    · simp [hp]

lemma strip_length_le (s : List Char) : (strip s).length ≤ s.length := by
  unfold strip
  rw [List.length_reverse]
  calc ((s.dropWhile isWs).reverse.dropWhile isWs).length
      ≤ (s.dropWhile isWs).reverse.length := length_dropWhileWs_le _ _
    _ = (s.dropWhile isWs).length := List.length_reverse _
    _ ≤ s.length := length_dropWhileWs_le _ _

lemma dropWhileWs_eq_self {l : List Char} (h : ∀ c ∈ l, isWs c = false) :
    l.dropWhile isWs = l := by
  cases l with
  | nil => rfl
  | cons a as => rw [List.dropWhile_cons, h a (by simp)]; simp

lemma strip_eq_self {w : List Char} (h : ∀ c ∈ w, isWs c = false) :
    strip w = w := by
  unfold strip
  rw [dropWhileWs_eq_self h, dropWhileWs_eq_self (fun c hc => h c (List.mem_reverse.mp hc)),
    List.reverse_reverse]

lemma splitWsAux_wordOk :
    ∀ (s acc : List Char), (∀ c ∈ acc, isWs c = false) →
      ∀ w ∈ splitWsAux s acc, w ≠ [] ∧ ∀ c ∈ w, isWs c = false := by
  intro s
  induction s with
  | nil =>
    intro acc hacc w hw
    unfold splitWsAux at hw
    by_cases ha : acc = []
    · simp [ha] at hw
    · rw [if_neg ha] at hw
      rcases List.mem_singleton.mp hw with rfl
      exact ⟨by simpa using ha, fun c hc => hacc c (List.mem_reverse.mp hc)⟩
  | cons c cs ih =>
    intro acc hacc w hw
    unfold splitWsAux at hw
    by_cases hc : isWs c
    · rw [if_pos hc] at hw
      by_cases ha : acc = []
      · rw [if_pos ha] at hw
        exact ih [] (by simp) w hw
      · rw [if_neg ha] at hw
        rcases List.mem_cons.mp hw with rfl | hw
        · exact ⟨by simpa using ha, fun d hd => hacc d (List.mem_reverse.mp hd)⟩
        · exact ih [] (by simp) w hw
    · rw [if_neg hc] at hw
      refine ih (c :: acc) ?_ w hw
      intro d hd
      rcases List.mem_cons.mp hd with rfl | hd
      · exact Bool.eq_false_iff.mpr hc
      · exact hacc d hd

lemma splitWs_wordOk {s : List Char} :
    ∀ w ∈ splitWs s, w ≠ [] ∧ ∀ c ∈ w, isWs c = false :=
  splitWsAux_wordOk s [] (by simp)

lemma splitWsAux_chars :
    ∀ (s acc : List Char), ∀ w ∈ splitWsAux s acc, ∀ c ∈ w, c ∈ s ∨ c ∈ acc := by
  intro s
  induction s with
  | nil =>
    intro acc w hw c hc
    unfold splitWsAux at hw
    by_cases ha : acc = []
    · simp [ha] at hw
    · rw [if_neg ha] at hw
      rcases List.mem_singleton.mp hw with rfl
      exact Or.inr (List.mem_reverse.mp hc)
  | cons a as ih =>
    intro acc w hw c hc
    unfold splitWsAux at hw
    by_cases hws : isWs a
    · rw [if_pos hws] at hw
      by_cases ha : acc = []
      · rw [if_pos ha] at hw
        rcases ih [] w hw c hc with h | h
        · exact Or.inl (List.mem_cons_of_mem a h)
        · simp at h
      · rw [if_neg ha] at hw
        rcases List.mem_cons.mp hw with rfl | hw
        · exact Or.inr (List.mem_reverse.mp hc)
        · rcases ih [] w hw c hc with h | h
          · exact Or.inl (List.mem_cons_of_mem a h)
          · simp at h
    · rw [if_neg hws] at hw
      rcases ih (a :: acc) w hw c hc with h | h
      · exact Or.inl (List.mem_cons_of_mem a h)
      · rcases List.mem_cons.mp h with rfl | h
        · exact Or.inl (by simp)
        · exact Or.inr h

lemma splitWs_chars {s : List Char} : ∀ w ∈ splitWs s, ∀ c ∈ w, c ∈ s := by
  intro w hw c hc
  rcases splitWsAux_chars s [] w hw c hc with h | h
  · exact h
  · simp at h

lemma sanitize_chars {alphabet s : List Char} :
    ∀ c ∈ sanitize alphabet s, c ∈ alphabet ∨ c = ' ' := by
  intro c hc
  rcases List.mem_map.mp hc with ⟨d, _, hd⟩
  by_cases h : d ∈ alphabet
  · rw [if_pos h] at hd
    exact Or.inl (hd ▸ h)
  · rw [if_neg h] at hd
    exact Or.inr hd.symm

/-! ## Helper lemmas: the greedy word-wrap loop -/

/-- Every line the greedy loop emits is at most `L` characters long, except a
line that is one of the words itself and is longer than `L`. -/
lemma wrapWords_bound (L : ℕ) (W : List (List Char))
    (hW : ∀ w ∈ W, w ≠ [] ∧ ∀ c ∈ w, isWs c = false) :
    ∀ (ws : List (List Char)) (current : List Char), (∀ w ∈ ws, w ∈ W) →
      (current.length ≤ L ∨ (current ∈ W ∧ L < current.length)) →
      ∀ l ∈ wrapWords L current ws, l.length ≤ L ∨ (l ∈ W ∧ L < l.length) := by
  intro ws
  induction ws with
  | nil =>
    intro current _ hcur l hl
    unfold wrapWords at hl
    by_cases hc : current = []
    · simp [hc] at hl
    · rw [if_neg hc] at hl
      rcases List.mem_singleton.mp hl with rfl
      rcases hcur with h | ⟨hmem, hgt⟩
      · exact Or.inl (le_trans (strip_length_le current) h)
      · rw [strip_eq_self (hW current hmem).2]
        exact Or.inr ⟨hmem, hgt⟩
  | cons w ws ih =>
    intro current hsub hcur l hl
    unfold wrapWords at hl
    by_cases hover : current.length + w.length + 1 > L
    · rw [if_pos hover] at hl
      rcases List.mem_cons.mp hl with rfl | hl
      · rcases hcur with h | ⟨hmem, hgt⟩
        · exact Or.inl (le_trans (strip_length_le current) h)
        · rw [strip_eq_self (hW current hmem).2]
          exact Or.inr ⟨hmem, hgt⟩
      · refine ih w (fun v hv => hsub v (List.mem_cons_of_mem w hv)) ?_ l hl
        by_cases hw : w.length ≤ L
        · exact Or.inl hw
        · exact Or.inr ⟨hsub w (by simp), by omega⟩
    · rw [if_neg hover] at hl
      refine ih (current ++ ' ' :: w) (fun v hv => hsub v (List.mem_cons_of_mem w hv))
        ?_ l hl
      left
      simp only [List.length_append, List.length_cons]
      omega

/-- Every character of an emitted line comes from the running line, the
inserted separating space, or one of the remaining words. -/
lemma wrapWords_chars (L : ℕ) :
    ∀ (ws : List (List Char)) (current : List Char),
      ∀ l ∈ wrapWords L current ws, ∀ c ∈ l,
        c ∈ current ∨ c = ' ' ∨ ∃ w ∈ ws, c ∈ w := by
  intro ws
  induction ws with
  | nil =>
    intro current l hl c hc
    unfold wrapWords at hl
    by_cases h : current = []
    · simp [h] at hl
    · rw [if_neg h] at hl
      rcases List.mem_singleton.mp hl with rfl
      exact Or.inl (mem_of_mem_strip hc)
  | cons w ws ih =>
    intro current l hl c hc
    unfold wrapWords at hl
    by_cases hover : current.length + w.length + 1 > L
    · rw [if_pos hover] at hl
      rcases List.mem_cons.mp hl with rfl | hl
      · exact Or.inl (mem_of_mem_strip hc)
      · rcases ih w l hl c hc with h | h | ⟨v, hv, hcv⟩
        · exact Or.inr (Or.inr ⟨w, by simp, h⟩)
        · exact Or.inr (Or.inl h)
        · exact Or.inr (Or.inr ⟨v, List.mem_cons_of_mem w hv, hcv⟩)
    · rw [if_neg hover] at hl
      rcases ih (current ++ ' ' :: w) l hl c hc with h | h | ⟨v, hv, hcv⟩
      · rcases List.mem_append.mp h with h | h
        · exact Or.inl h
        · rcases List.mem_cons.mp h with rfl | h
          · exact Or.inr (Or.inl rfl)
          · exact Or.inr (Or.inr ⟨w, by simp, h⟩)
      · exact Or.inr (Or.inl h)
      · exact Or.inr (Or.inr ⟨v, List.mem_cons_of_mem w hv, hcv⟩)

/-! ## Helper lemmas: chunking -/

lemma chunksOf_join {α : Type _} (P : ℕ) (hP : P ≠ 0) :
    ∀ (n : ℕ) (l : List α), l.length ≤ n → (chunksOf P l).flatten = l := by
  intro n
  induction n with
  | zero =>
    intro l hl
    match l with
    | [] => simp [chunksOf]
    | x :: xs => simp at hl
  | succ n ih =>
    intro l hl
    match l with
    | [] => simp [chunksOf]
    | x :: xs =>
      rw [chunksOf, if_neg hP, List.flatten_cons,
        ih ((x :: xs).drop P)
          (by simp only [List.length_drop, List.length_cons]
              simp only [List.length_cons] at hl
              omega)]
      exact List.take_append_drop P (x :: xs)

lemma chunksOf_mem_length_le {α : Type _} (P : ℕ) :
    ∀ (n : ℕ) (l : List α), l.length ≤ n → ∀ pg ∈ chunksOf P l, pg.length ≤ P := by
  intro n
  induction n with
  | zero =>
    intro l hl pg hpg
    match l with
    | [] => simp [chunksOf] at hpg
    | x :: xs => simp at hl
  | succ n ih =>
    intro l hl pg hpg
    match l with
    | [] => simp [chunksOf] at hpg
    | x :: xs =>
      rw [chunksOf] at hpg
      by_cases hP : P = 0
      · simp [hP] at hpg
      · rw [if_neg hP] at hpg
        rcases List.mem_cons.mp hpg with rfl | hpg
        · simp
        · exact ih ((x :: xs).drop P)
            (by simp only [List.length_drop, List.length_cons]
                simp only [List.length_cons] at hl
                omega) pg hpg

lemma chunksOf_eq_nil_iff {α : Type _} {P : ℕ} (hP : P ≠ 0) {l : List α} :
    chunksOf P l = [] ↔ l = [] := by
  match l with
  | [] => simp [chunksOf]
  | x :: xs =>
    rw [chunksOf, if_neg hP]
    simp

lemma chunksOf_dropLast {α : Type _} (P : ℕ) (hP : P ≠ 0) :
    ∀ (n : ℕ) (l : List α), l.length ≤ n →
      ∀ pg ∈ (chunksOf P l).dropLast, pg.length = P := by
  intro n
  induction n with
  | zero =>
    intro l hl pg hpg
    match l with
    | [] => simp [chunksOf] at hpg
    | x :: xs => simp at hl
  | succ n ih =>
    intro l hl pg hpg
    match l with
    | [] => simp [chunksOf] at hpg
    | x :: xs =>
      rw [chunksOf, if_neg hP] at hpg
      by_cases hrest : chunksOf P ((x :: xs).drop P) = []
      · simp [hrest] at hpg
      · rw [List.dropLast_cons_of_ne_nil hrest] at hpg
        rcases List.mem_cons.mp hpg with rfl | hpg
        · have hd : (x :: xs).drop P ≠ [] := by
            intro hdnil
            exact hrest (by rw [hdnil]; simp [chunksOf])
          have hlen : P < (x :: xs).length := by
            by_contra hle
            push_neg at hle
            exact hd (List.drop_eq_nil_of_le hle)
          simp only [List.length_cons] at hlen
          simp [List.length_take]
          omega
        · exact ih ((x :: xs).drop P)
            (by simp only [List.length_drop, List.length_cons]
                simp only [List.length_cons] at hl
                omega) pg hpg

/-! ## Helper lemmas: minima and placement -/

lemma foldl_min_map_sub (a : ℚ) :
    ∀ (l : List ℚ) (x : ℚ), (l.map (fun y => y - a)).foldl min (x - a)
      = l.foldl min x - a := by
  intro l
  induction l with
  | nil => intro x; simp
  | cons b bs ih =>
    intro x
    simp only [List.map_cons, List.foldl_cons]
    rw [min_sub_sub_right x b a, ih]

lemma listMin_map_sub {l : List ℚ} (hl : l ≠ []) (a : ℚ) :
    listMin (l.map (fun y => y - a)) = listMin l - a := by
  match l with
  | [] => exact absurd rfl hl
  | x :: xs =>
    simp only [listMin, List.map_cons]
    exact foldl_min_map_sub a xs x

lemma place_map_fst (c : ℚ × ℚ) (s : List (ℚ × ℚ)) :
    (place c s).map Prod.fst
      = (s.map Prod.fst).map (fun y => y - (globalMin s + c.1)) := by
  simp [place, List.map_map, Function.comp_def]

lemma place_map_snd (c : ℚ × ℚ) (s : List (ℚ × ℚ)) :
    (place c s).map Prod.snd
      = (s.map Prod.snd).map (fun y => y - (globalMin s + c.2)) := by
  simp [place, List.map_map, Function.comp_def]

lemma minX_place {s : List (ℚ × ℚ)} (hs : s ≠ []) (c : ℚ × ℚ) :
    minX (place c s) = minX s - globalMin s - c.1 := by
  unfold minX
  rw [place_map_fst, listMin_map_sub (by simpa using hs)]
  ring

lemma minY_place {s : List (ℚ × ℚ)} (hs : s ≠ []) (c : ℚ × ℚ) :
    minY (place c s) = minY s - globalMin s - c.2 := by
  unfold minY
  rw [place_map_snd, listMin_map_sub (by simpa using hs)]
  ring

/-- Moving the anchor down by `d` moves every placed point down by `d`. -/
lemma place_shift (c : ℚ × ℚ) (d : ℚ) (s : List (ℚ × ℚ)) :
    place (c.1, c.2 - d) s = (place c s).map (fun p => (p.1, p.2 + d)) := by
  simp only [place, List.map_map]
  apply List.map_congr_left
  intro p _
  simp only [Function.comp_apply, Prod.mk.injEq]
  constructor <;> ring_nf

/-! ## Helper lemmas: the composition loop -/

lemma composeLines_take (lh : ℚ) (cap : ℕ) :
    ∀ (items : List LineItem) (i : ℕ) (st : ComposeState),
      composeLines lh cap i st items
        = composeLines lh cap i st (items.take (cap - i)) := by
  intro items
  induction items with
  | nil => intro i st; simp
  | cons it rest ih =>
    intro i st
    by_cases h : cap ≤ i
    · have : cap - i = 0 := by omega
      rw [this]
      simp only [List.take_zero]
      simp [composeLines, h]
    · have hstep : cap - i = (cap - (i + 1)) + 1 := by omega
      rw [hstep, List.take_succ_cons]
      simp only [composeLines, if_neg h]
      exact ih (i + 1) (lineStep lh st it)

lemma lineStep_paths_le (lh : ℚ) (st : ComposeState) (it : LineItem) :
    (lineStep lh st it).paths.length ≤ st.paths.length + 1 := by
  unfold lineStep
  by_cases h : it.line = []
  · simp [h]
  · simp [h]

lemma composeLines_paths_le (lh : ℚ) (cap : ℕ) :
    ∀ (items : List LineItem) (i : ℕ) (st : ComposeState),
      (composeLines lh cap i st items).paths.length
        ≤ st.paths.length + (cap - i) := by
  intro items
  induction items with
  | nil => intro i st; simp [composeLines]
  | cons it rest ih =>
    intro i st
    by_cases h : cap ≤ i
    · simp [composeLines, h]
    · simp only [composeLines, if_neg h]
      have h1 := ih (i + 1) (lineStep lh st it)
      have h2 := lineStep_paths_le lh st it
      omega

lemma composeLines_cons (lh : ℚ) (cap i : ℕ) (st : ComposeState)
    (it : LineItem) (rest : List LineItem) (h : i < cap) :
    composeLines lh cap i st (it :: rest)
      = composeLines lh cap (i + 1) (lineStep lh st it) rest := by
  simp [composeLines, Nat.not_le.mpr h]

/-! ## Claim theorems -/

/-- C1: the number of stroke paths placed onto one document never exceeds the
configured `total_lines_per_page` slot count, and once the per-page line index
reaches that cap all remaining Display Lines are dropped: the composition loop
computes the same state as on the truncated item list. -/
theorem composition_cap (cfg : PageCfg) (items : List LineItem) :
    (strokePaths cfg items).length ≤ cfg.total_lines_per_page ∧
    composeLines cfg.line_height cfg.total_lines_per_page 0
        ⟨initialCoord cfg, []⟩ items
      = composeLines cfg.line_height cfg.total_lines_per_page 0
          ⟨initialCoord cfg, []⟩ (items.take cfg.total_lines_per_page) := by
  constructor
  · have h := composeLines_paths_le cfg.line_height cfg.total_lines_per_page
      items 0 ⟨initialCoord cfg, []⟩
    simpa [strokePaths] using h
  · have h := composeLines_take cfg.line_height cfg.total_lines_per_page
      items 0 ⟨initialCoord cfg, []⟩
    simpa using h

/-- C6: pagination splits the wrapped sequence into consecutive chunks whose
concatenation is the original sequence; every page except possibly the last
has exactly `P` lines, and no page has more than `P`. -/
theorem pagination_partition (l : List (List Char)) (P : ℕ) (hP : 1 ≤ P) :
    (chunksOf P l).flatten = l ∧
    (∀ pg ∈ (chunksOf P l).dropLast, pg.length = P) ∧
    (∀ pg ∈ chunksOf P l, pg.length ≤ P) := by
  have hP' : P ≠ 0 := by omega
  exact ⟨chunksOf_join P hP' l.length l le_rfl,
    chunksOf_dropLast P hP' l.length l le_rfl,
    chunksOf_mem_length_le P l.length l le_rfl⟩

/-- C7: the document contains exactly `total_lines_per_page` ruled guide
lines, independent of the composed Display Lines; the guide for (1-based)
slot `k+1` spans the full viewport width at
`y = line_height * (k+1) - margin_top` in the ruled-line color. -/
theorem ruled_grid_fixed (cfg : PageCfg) (items : List LineItem) (k : ℕ)
    (hk : k < cfg.total_lines_per_page) :
    ((draw cfg items).drop 1).take cfg.total_lines_per_page = ruledGrid cfg ∧
    (ruledGrid cfg).length = cfg.total_lines_per_page ∧
    (ruledGrid cfg).getD k (SvgElem.rect 0 0 0 0 "")
      = SvgElem.line 0 (cfg.line_height * (k + 1) - cfg.margin_top)
          cfg.view_width (cfg.line_height * (k + 1) - cfg.margin_top)
          cfg.line_color 1 := by
  have hlen : (ruledGrid cfg).length = cfg.total_lines_per_page := by
    unfold ruledGrid
    rw [List.length_map, List.length_range]
  refine ⟨?_, hlen, ?_⟩
  · unfold draw
    rw [List.cons_append, List.cons_append, List.drop_one, List.tail_cons,
      List.append_assoc, ← hlen, List.take_left]
  · rw [List.getD_eq_getElem?_getD]
    unfold ruledGrid
    rw [List.getElem?_map, List.getElem?_range hk]
    rfl

/-- C4: when the wrapped-line count exceeds the budget `T` (in non-preview
generation), an Overflow report carrying the actual count and `T` is raised;
answering *no* aborts, answering *yes* truncates to exactly `T` lines; and the
component never truncates without such a signalled decision: any output that
differs from the input arises only from a signalled overflow answered *yes*. -/
theorem overflow_signalled (wrapped : List (List Char)) (T : ℕ)
    (h : T < wrapped.length) :
    overflowReport false wrapped T = some (wrapped.length, T) ∧
    resolveOverflow false wrapped T false = none ∧
    resolveOverflow false wrapped T true = some (wrapped.take T) ∧
    (wrapped.take T).length = T ∧
    (∀ (preview proceed : Bool) (w : List (List Char)) (B : ℕ)
        (out : List (List Char)),
      resolveOverflow preview w B proceed = some out →
        out = w ∨ (preview = false ∧ B < w.length ∧ proceed = true ∧
          out = w.take B)) := by
  refine ⟨?_, ?_, ?_, ?_, ?_⟩
  · simp [overflowReport, h]
  · simp [resolveOverflow, h]
  · simp [resolveOverflow, h]
  · simp only [List.length_take]
    omega
  · intro preview proceed w B out hout
    unfold resolveOverflow at hout
    split at hout
    · rename_i hcond
      split at hout
      · rename_i hpr
        refine Or.inr ⟨?_, ?_, hpr, ?_⟩
        · simpa using hcond.1
        · exact hcond.2
        · exact (Option.some.injEq _ _ ▸ hout).symm
      · exact absurd hout (by simp)
    · exact Or.inl (by simpa using hout.symm)

/-- C5: every Display Line produced by hard-split wrapping has length at most
`L`; every Display Line produced by greedy word-wrap has length at most `L`
except a line that is itself a single word longer than `L`. -/
theorem wrap_length_bound (L : ℕ) (_hL : 1 ≤ L) :
    (∀ (srcLines : List (List Char)) (l : List Char),
        l ∈ guiWrap L srcLines → l.length ≤ L) ∧
    (∀ (alphabet line l : List Char),
        l ∈ processLine alphabet L line →
        l.length ≤ L ∨ (l ∈ splitWs (sanitize alphabet line) ∧ L < l.length)) := by
  constructor
  · intro srcLines l hl
    rcases List.mem_flatMap.mp hl with ⟨line, _, hmem⟩
    by_cases hline : line = []
    · rw [if_pos hline] at hmem
      rcases List.mem_singleton.mp hmem with rfl
      simp
    · rw [if_neg hline] at hmem
      exact chunksOf_mem_length_le L line.length line le_rfl l hmem
  · intro alphabet line l hl
    simp only [processLine, wrapLine] at hl
    exact wrapWords_bound L (splitWs (sanitize alphabet line))
      (fun w hw => splitWs_wordOk w hw) (splitWs (sanitize alphabet line)) []
      (fun w hw => hw) (Or.inl (by simp)) l hl

/-- C10: `process_text` replaces every character outside the supplied alphabet
by a space before wrapping; hence (the alphabet containing the space, as the
one in `main.py` does) every wrapped Display Line consists only of characters
of the alphabet. -/
theorem sanitize_invariant (alphabet src : List Char) (L : ℕ)
    (hsp : ' ' ∈ alphabet) :
    (∀ (i : ℕ) (c : Char), src[i]? = some c → c ∉ alphabet →
        (sanitize alphabet src)[i]? = some ' ') ∧
    (∀ l ∈ processLine alphabet L src, ∀ c ∈ l, c ∈ alphabet) := by
  constructor
  · intro i c hi hc
    unfold sanitize
    rw [List.getElem?_map, hi]
    simp [hc]
  · intro l hl c hc
    simp only [processLine, wrapLine] at hl
    rcases wrapWords_chars L (splitWs (sanitize alphabet src)) [] l hl c hc
      with h | h | ⟨w, hw, hcw⟩
    · simp at h
    · exact h ▸ hsp
    · rcases sanitize_chars c (splitWs_chars w hw c hcw) with h | h
      · exact h
      · exact h ▸ hsp

/-- C2 (amended): the placement step subtracts, from every coordinate, the
*scalar global minimum* of the stroke (the minimum over the x and y values
jointly) plus the corresponding anchor component.  Hence after placement the
minimum x is `min_x − m − c.x` and the minimum y is `min_y − m − c.y`, and a
per-axis minimum coincides with the negated anchor component exactly on an
axis that attains the global minimum — not on both axes in general. -/
theorem placement_global_min (s : List (ℚ × ℚ)) (c : ℚ × ℚ) (hs : s ≠ []) :
    minX (place c s) = minX s - globalMin s - c.1 ∧
    minY (place c s) = minY s - globalMin s - c.2 ∧
    (globalMin s = minX s → minX (place c s) = -c.1) ∧
    (globalMin s = minY s → minY (place c s) = -c.2) := by
  refine ⟨minX_place hs c, minY_place hs c, ?_, ?_⟩
  · intro h
    rw [minX_place hs c, ← h]
    ring
  · intro h
    rw [minY_place hs c, ← h]
    ring

/-- C2 (counterexample): placing the normalized stroke
`[(5, 0), (10, 3)]` at `main.py`'s initial cursor
`initial_coord = (-64, -112)` leaves minimum x `= 69` and minimum y `= 112`:
the minimum x equals neither the configured left margin `-64` nor its
negation `64`, and the minimum y does not equal the cursor `-112`; the
discrepancy (133 or 5 units in x) is far beyond floating-point tolerance. -/
theorem placement_anchor_cex :
    minX (place (initialCoord mainPageCfg) [((5 : ℚ), 0), (10, 3)]) = 69 ∧
    minY (place (initialCoord mainPageCfg) [((5 : ℚ), 0), (10, 3)]) = 112 ∧
    mainPageCfg.margin_left = -64 ∧
    (initialCoord mainPageCfg).2 = -112 ∧
    (69 : ℚ) ≠ -64 ∧ (69 : ℚ) ≠ 64 ∧ (112 : ℚ) ≠ -112 := by
  refine ⟨?_, ?_, by norm_num [mainPageCfg], by norm_num [initialCoord, mainPageCfg],
    by norm_num, by norm_num, by norm_num⟩
  · norm_num [minX, place, globalMin, listMin, initialCoord, mainPageCfg, min_def]
  · norm_num [minY, place, globalMin, listMin, initialCoord, mainPageCfg, min_def]

/-- C8: every processed Display Line advances the write cursor down by
exactly one line height; a blank Display Line performs only that advance and
emits no stroke path; consequently a blank line between two text lines
places the second text line's stroke exactly one line height lower (every
placed point's y larger by `line_height`) than without the blank line. -/
theorem cursor_advance (cfg : PageCfg) (st : ComposeState) (it : LineItem)
    (s1 sb s2 : List (ℚ × ℚ)) (l1 l2 : List Char) (col1 col2 colb : String)
    (w1 w2 wb : ℚ) (h1 : l1 ≠ []) (h2 : l2 ≠ [])
    (hcap : 3 ≤ cfg.total_lines_per_page) :
    ((lineStep cfg.line_height st it).cursor
        = (st.cursor.1, st.cursor.2 - cfg.line_height)) ∧
    (it.line = [] → (lineStep cfg.line_height st it).paths = st.paths) ∧
    strokePaths cfg [⟨s1, l1, col1, w1⟩, ⟨sb, [], colb, wb⟩, ⟨s2, l2, col2, w2⟩]
      = [SvgElem.path (place (initialCoord cfg) (orient s1)) col1 w1,
         SvgElem.path (place ((initialCoord cfg).1,
             (initialCoord cfg).2 - 2 * cfg.line_height) (orient s2)) col2 w2] ∧
    strokePaths cfg [⟨s1, l1, col1, w1⟩, ⟨s2, l2, col2, w2⟩]
      = [SvgElem.path (place (initialCoord cfg) (orient s1)) col1 w1,
         SvgElem.path (place ((initialCoord cfg).1,
             (initialCoord cfg).2 - cfg.line_height) (orient s2)) col2 w2] ∧
    place ((initialCoord cfg).1, (initialCoord cfg).2 - 2 * cfg.line_height)
        (orient s2)
      = (place ((initialCoord cfg).1, (initialCoord cfg).2 - cfg.line_height)
          (orient s2)).map (fun p => (p.1, p.2 + cfg.line_height)) := by
  have e2 : (initialCoord cfg).2 - cfg.line_height - cfg.line_height
      = (initialCoord cfg).2 - 2 * cfg.line_height := by ring
  refine ⟨?_, ?_, ?_, ?_, ?_⟩
  · unfold lineStep
    split <;> rfl
  · intro hblank
    simp [lineStep, hblank]
  · unfold strokePaths
    rw [composeLines_cons _ _ _ _ _ _ (by omega),
      composeLines_cons _ _ _ _ _ _ (by omega),
      composeLines_cons _ _ _ _ _ _ (by omega)]
    simp only [composeLines, lineStep, h1, h2, if_neg, reduceIte]
    rw [e2]
    simp
  · unfold strokePaths
    rw [composeLines_cons _ _ _ _ _ _ (by omega),
      composeLines_cons _ _ _ _ _ _ (by omega)]
    simp only [composeLines, lineStep, h1, h2, if_neg, reduceIte]
    simp
  · rw [← e2]
    exact place_shift ((initialCoord cfg).1,
      (initialCoord cfg).2 - cfg.line_height) cfg.line_height (orient s2)

/-- C3 (counterexample): in the CLI pipeline (`main.py`), a blank source line
is dropped when the file is read (`if line.strip()`): an input of exactly one
blank line wraps to *no* Display Line, not to one empty Display Line, and a
blank line between two text lines vanishes from the wrapped output. -/
theorem blank_line_dropped_cex :
    mainWrapped [' ', 'a'] 60 [[]] = [] ∧
    mainWrapped [' ', 'a'] 60 [[]] ≠ [[]] ∧
    mainWrapped [' ', 'a'] 60 [[' ', 'a'], [], ['a']] = [['a'], ['a']] := by
  refine ⟨by decide, by decide, by decide⟩

/-- C3 (amended): the two pipelines differ.  In the CLI pipeline a source
line whose strip is empty contributes *zero* Display Lines (it is filtered
out at read time); in the GUI pipeline an empty source line yields exactly
one empty Display Line in place. -/
theorem blank_line_behavior (A : List Char) (L : ℕ)
    (pre post : List (List Char)) (bl : List Char) (hbl : strip bl = []) :
    mainWrapped A L (pre ++ bl :: post) = mainWrapped A L (pre ++ post) ∧
    (∀ (gpre gpost : List (List Char)),
      guiWrap L (gpre ++ [] :: gpost)
        = guiWrap L gpre ++ [[]] ++ guiWrap L gpost) := by
  constructor
  · simp [mainWrapped, List.map_append, List.filter_append, hbl]
  · intro gpre gpost
    simp [guiWrap, List.flatMap_append, List.flatMap_cons]

/-- C9 (amended): on a degenerate viewport (either dimension at most 10
pixels, the (0,0) viewport included) the raster preview leaves the canvas —
hence the previously displayed contents — unchanged and raises no error, but
only after the SVG has already been rasterized to a PNG bitmap file; the
layout preview clears the canvas *before* the viewport check, so it returns
with an empty canvas, not the previous contents. -/
theorem degenerate_viewport_noop (cfg : LayoutCfg) (prev : List CanvasItem)
    (img_w img_h w h : ℤ) (hd : w ≤ 10 ∨ h ≤ 10) :
    (displaySvgPreview prev img_w img_h w h).canvas = prev ∧
    (displaySvgPreview prev img_w img_h w h).png_written = true ∧
    drawLayoutPreview cfg prev w h = [] := by
  refine ⟨?_, ?_, ?_⟩
  · unfold displaySvgPreview
    rw [if_pos hd]
  · unfold displaySvgPreview
    rw [if_pos hd]
  · unfold drawLayoutPreview
    rw [if_pos hd]
    exact List.drop_length prev

/-- C9 (counterexample): at the (0,0) viewport, `display_svg_preview` has
already produced the PNG bitmap file before its early return, and
`draw_layout_preview` returns with the canvas cleared rather than with its
previous contents. -/
theorem degenerate_viewport_cex :
    (displaySvgPreview [CanvasItem.rect 0 0 1 1 "white" "black"] 100 100 0 0).png_written
      = true ∧
    drawLayoutPreview cexLayoutCfg [CanvasItem.rect 0 0 1 1 "white" "black"] 0 0
      = [] ∧
    [CanvasItem.rect 0 0 1 1 "white" "black"] ≠ ([] : List CanvasItem) := by
  refine ⟨by decide, by decide, by decide⟩

/-! ## Witnesses -/

/-- Witness for C6 at `P = 2` on a three-line sequence. -/
theorem pagination_partition_witness :
    (1 : ℕ) ≤ 2 ∧
    (chunksOf 2 [['a'], ['b'], ['c']]).flatten = [['a'], ['b'], ['c']] :=
  ⟨by decide, (pagination_partition [['a'], ['b'], ['c']] 2 (by decide)).1⟩

/-- Witness for C7 at slot 0 of the `main.py` page configuration. -/
theorem ruled_grid_fixed_witness :
    0 < mainPageCfg.total_lines_per_page ∧
    (ruledGrid mainPageCfg).length = mainPageCfg.total_lines_per_page :=
  ⟨by norm_num [mainPageCfg],
   (ruled_grid_fixed mainPageCfg [] 0 (by norm_num [mainPageCfg])).2.1⟩

/-- Witness for C4: two wrapped lines against a budget of one. -/
theorem overflow_signalled_witness :
    (1 : ℕ) < ([['a'], ['b']] : List (List Char)).length ∧
    overflowReport false [['a'], ['b']] 1
      = some (([['a'], ['b']] : List (List Char)).length, 1) :=
  ⟨by decide, (overflow_signalled [['a'], ['b']] 1 (by decide)).1⟩

/-- Witness for C5 at `L = 5` on the sanitized line `"a b"`. -/
theorem wrap_length_bound_witness :
    (1 : ℕ) ≤ 5 ∧
    (['a', ' ', 'b'] ∈ processLine ['a', 'b', ' '] 5 ['a', '!', 'b']) ∧
    ((['a', ' ', 'b'] : List Char).length ≤ 5 ∨
      (['a', ' ', 'b'] ∈ splitWs (sanitize ['a', 'b', ' '] ['a', '!', 'b']) ∧
        5 < (['a', ' ', 'b'] : List Char).length)) :=
  ⟨by decide, by decide,
    (wrap_length_bound 5 (by decide)).2 ['a', 'b', ' '] ['a', '!', 'b']
      ['a', ' ', 'b'] (by decide)⟩

/-- Witness for C10 on the alphabet `[' ', 'a']` and the line `"a!"`. -/
theorem sanitize_invariant_witness :
    ' ' ∈ [' ', 'a'] ∧
    (sanitize [' ', 'a'] ['a', '!'])[1]? = some ' ' :=
  ⟨by decide,
   (sanitize_invariant [' ', 'a'] ['a', '!'] 5 (by decide)).1 1 '!'
     (by decide) (by decide)⟩

/-- Witness for the amended C2 on the one-point stroke `[(5, 7)]`. -/
theorem placement_global_min_witness :
    ([((5 : ℚ), 7)] : List (ℚ × ℚ)) ≠ [] ∧
    minX (place ((2 : ℚ), 3) [((5 : ℚ), 7)])
      = minX [((5 : ℚ), 7)] - globalMin [((5 : ℚ), 7)] - 2 :=
  ⟨by decide, (placement_global_min [((5 : ℚ), 7)] (2, 3) (by decide)).1⟩

/-- Witness for the amended C3 on a whitespace-only middle line. -/
theorem blank_line_behavior_witness :
    strip [' '] = [] ∧
    mainWrapped ['a'] 5 ([['a']] ++ [' '] :: [['a']])
      = mainWrapped ['a'] 5 ([['a']] ++ [['a']]) :=
  ⟨by decide, (blank_line_behavior ['a'] 5 [['a']] [['a']] [' '] (by decide)).1⟩

/-- Witness for the amended C9 at the (0,0) viewport. -/
theorem degenerate_viewport_noop_witness :
    ((0 : ℤ) ≤ 10 ∨ (0 : ℤ) ≤ 10) ∧
    (displaySvgPreview [] 100 100 0 0).canvas = [] ∧
    drawLayoutPreview cexLayoutCfg [] 0 0 = [] :=
  ⟨by decide,
   (degenerate_viewport_noop cexLayoutCfg [] 100 100 0 0 (by decide)).1,
   (degenerate_viewport_noop cexLayoutCfg [] 100 100 0 0 (by decide)).2.2⟩

/-- Witness for C8: a blank line between two one-point strokes on the
`main.py` page configuration. -/
theorem cursor_advance_witness :
    (['a'] : List Char) ≠ [] ∧ (['b'] : List Char) ≠ [] ∧
    3 ≤ mainPageCfg.total_lines_per_page ∧
    strokePaths mainPageCfg
        [⟨[((0 : ℚ), 0)], ['a'], "black", 1⟩, ⟨[], [], "black", 1⟩,
         ⟨[((1 : ℚ), 2)], ['b'], "black", 1⟩]
      = [SvgElem.path (place (initialCoord mainPageCfg)
            (orient [((0 : ℚ), 0)])) "black" 1,
         SvgElem.path (place ((initialCoord mainPageCfg).1,
             (initialCoord mainPageCfg).2 - 2 * mainPageCfg.line_height)
           (orient [((1 : ℚ), 2)])) "black" 1] :=
  ⟨by decide, by decide, by norm_num [mainPageCfg],
   (cursor_advance mainPageCfg ⟨(0, 0), []⟩ ⟨[], [], "black", 1⟩
     [((0 : ℚ), 0)] [] [((1 : ℚ), 2)] ['a'] ['b'] "black" "black" "black" 1 1 1
     (by decide) (by decide) (by norm_num [mainPageCfg])).2.2.1⟩

end TextoHand
